import Mathlib

/-!
Verification development for the LayeredHashMap repository.

The C++ sources are embedded shallowly.  The repository is built with MSVC
for x86/AMD64 (Main.cpp includes <Windows.h>, the headers use backslash
include paths and the `_MSC_VER` branch of PlatformAtomic.h); on the AMD64
target `sizeof(size_t) = 8`, so the 64-bit constant tables and the 64-bit
branch of every `sizeof(size_t) <= 4 ? ... : ...` selection are the ones
compiled into the program.  The embedding fixes that platform: `size_t`
values are natural numbers with wrap-around made explicit where the C++
arithmetic can wrap, `sInt` values are integers, and the 64-bit tables are
used by the map operations.  Both constant tables are embedded for the
table-invariant claims.

Concurrency is specialised to the sequential (single-thread) executions the
claims speak about: every spin lock is acquired immediately and the lock word
of a slot at rest carries only its VALUE (occupancy) bit, exactly as
`write_unlock` leaves it.
-/

namespace LayeredHashMap

/-! ## LayeredHashMapMathematics.h -/

/-- The 64-bit bit-twiddling masks `b64` (the pointer `b` selects these on the
64-bit platform). -/
def b64 : List Nat := [0x2, 0xC, 0xF0, 0xFF00, 0xFFFF0000, 0xFFFFFFFF00000000]

/-- The shift table `S`. -/
def S : List Nat := [1, 2, 4, 8, 16, 32]

/-- `Log2Iterations` on the 64-bit platform. -/
def Log2Iterations : Nat := 5

/-- The body of `IntLog2`'s `for (auto i = Log2Iterations; i >= 0; i--)` loop:
the list argument is the descending sequence of loop indices still to run,
and the two accumulators are the mutable variables `X` and `Result`. -/
def IntLog2Aux : List Nat → Nat → Nat → Nat
  | [], _, Result => Result
  | i :: is, X, Result =>
    if X &&& b64.getD i 0 ≠ 0 then
      IntLog2Aux is (X >>> S.getD i 0) (Result ||| S.getD i 0)
    else
      IntLog2Aux is X Result

/-- `IntLog2` from LayeredHashMapMathematics.h: position of the most
significant set bit, found by the bit-twiddling reduction. -/
def IntLog2 (X : Nat) : Nat :=
  IntLog2Aux (List.range (Log2Iterations + 1)).reverse X 0

/-- `__Primes_32b` (the leading 0 plays the role of `Primes[-1]`). -/
def __Primes_32b : List Nat := [
  0, 757, 1783, 3833, 7937,
  16141, 32537, 65327, 130873,
  261977, 524123, 1048433, 2097013,
  4194167, 8388473, 16777121, 33554341,
  67108777, 134217649, 268435399, 536870869,
  1073741789, 2147483629, 4294967291]

/-- `__Primes_64b`. -/
def __Primes_64b : List Nat := [
  0, 2633, 6733, 14929, 31321, 64091,
  129643, 260723, 522883, 1047173, 2095759,
  4192919, 8387231, 16775849, 33553103, 67107569,
  134216461, 268434193, 536869651, 1073740571, 2147482417,
  4294966099, 8589933397, 17179867997, 34359737227, 68719475599,
  137438952341, 274877905823, 549755812831, 1099511626727, 2199023254517,
  4398046510073, 8796093021181, 17592186043451, 35184372087881, 70368744176729,
  140737488354413, 281474976709757, 562949953420457, 1125899906841811, 2251799813684467,
  4503599627369863, 9007199254740397]

/-- `NextPower_32b`: consecutive power-of-two masks. -/
def NextPower_32b : List Nat := [
  (1 <<< 10) - 1, (1 <<< 11) - 1, (1 <<< 12) - 1, (1 <<< 13) - 1,
  (1 <<< 14) - 1, (1 <<< 15) - 1, (1 <<< 16) - 1, (1 <<< 17) - 1,
  (1 <<< 18) - 1, (1 <<< 19) - 1, (1 <<< 20) - 1, (1 <<< 21) - 1,
  (1 <<< 22) - 1, (1 <<< 23) - 1, (1 <<< 24) - 1, (1 <<< 25) - 1,
  (1 <<< 26) - 1, (1 <<< 27) - 1, (1 <<< 28) - 1, (1 <<< 29) - 1,
  (1 <<< 30) - 1, (1 <<< 31) - 1, 4294967295]

/-- `NextPower_64b`. -/
def NextPower_64b : List Nat := [
  (1 <<< 12) - 1, (1 <<< 13) - 1,
  (1 <<< 14) - 1, (1 <<< 15) - 1, (1 <<< 16) - 1, (1 <<< 17) - 1,
  (1 <<< 18) - 1, (1 <<< 19) - 1, (1 <<< 20) - 1, (1 <<< 21) - 1,
  (1 <<< 22) - 1, (1 <<< 23) - 1, (1 <<< 24) - 1, (1 <<< 25) - 1,
  (1 <<< 26) - 1, (1 <<< 27) - 1, (1 <<< 28) - 1, (1 <<< 29) - 1,
  (1 <<< 30) - 1, (1 <<< 31) - 1, (1 <<< 32) - 1, (1 <<< 33) - 1,
  (1 <<< 34) - 1, (1 <<< 35) - 1, (1 <<< 36) - 1, (1 <<< 37) - 1,
  (1 <<< 38) - 1, (1 <<< 39) - 1, (1 <<< 40) - 1, (1 <<< 41) - 1,
  (1 <<< 42) - 1, (1 <<< 43) - 1, (1 <<< 44) - 1, (1 <<< 45) - 1,
  (1 <<< 46) - 1, (1 <<< 47) - 1, (1 <<< 48) - 1, (1 <<< 49) - 1,
  (1 <<< 50) - 1, (1 <<< 51) - 1, (1 <<< 52) - 1, (1 <<< 53) - 1]

/-- The `NextPower` pointer (64-bit table selected on the target platform). -/
def NextPower (i : Nat) : Nat := NextPower_64b.getD i 0

/-- The `Primes` pointer: `Primes = &__Primes_64b[1]`, so that
`Primes[-1] == __Primes_64b[0] = 0`. -/
def Primes (i : Nat) : Nat := __Primes_64b.getD (i + 1) 0

/-- The access `Primes[i - 1]` through the shifted base pointer, defined for
`i = 0` as well (it then reads `__Primes_64b[0] = 0`). -/
def PrimesPrev (i : Nat) : Nat := __Primes_64b.getD i 0

/-- `LowestExponent` on the 64-bit platform. -/
def LowestExponent : Nat := 11

/-- `MaxLayerCount` on the 64-bit platform. -/
def MaxLayerCount : Nat := 42

/-- `LowestNextPower` on the 64-bit platform. -/
def LowestNextPower : Nat := 2048

/-! ### Correctness of `IntLog2`

`IntLog2` computes the position of the most significant set bit, i.e.
`Nat.log2`, for every argument that fits in a 64-bit word. -/

theorem testBit_log2_self {X : Nat} (h : X ≠ 0) : X.testBit X.log2 = true := by
  have h1 : 2 ^ X.log2 ≤ X := Nat.log2_self_le h
  have h2 : X < 2 ^ (X.log2 + 1) := Nat.lt_log2_self
  rw [Nat.testBit_to_div_mod]
  have hdiv : X / 2 ^ X.log2 = 1 := by
    have hlo : 1 ≤ X / 2 ^ X.log2 := (Nat.one_le_div_iff (Nat.two_pow_pos _)).2 h1
    have hhi : X / 2 ^ X.log2 < 2 := by
      rw [Nat.div_lt_iff_lt_mul (Nat.two_pow_pos _)]
      calc X < 2 ^ (X.log2 + 1) := h2
        _ = 2 * 2 ^ X.log2 := by rw [Nat.pow_succ, Nat.mul_comm]
    omega
  rw [hdiv]
  decide

theorem and_block_eq_zero_iff {m X : Nat} (_hm : 0 < m) (hX : X < 2 ^ (2 * m)) :
    (X &&& (2 ^ (2 * m) - 2 ^ m) = 0) ↔ X < 2 ^ m := by
  have hmm : 2 ^ m * 2 ^ m = 2 ^ (2 * m) := by rw [← Nat.pow_add, Nat.two_mul]
  have hmask : 2 ^ (2 * m) - 2 ^ m = 2 ^ m * (2 ^ m - 1) := by
    rw [Nat.mul_sub_one, hmm]
  constructor
  · intro hzero
    by_contra hge
    have hge' : 2 ^ m ≤ X := by omega
    have hX0 : X ≠ 0 := by have := Nat.two_pow_pos m; omega
    have hjlo : m ≤ X.log2 := (Nat.le_log2 hX0).2 hge'
    have hjhi : X.log2 < 2 * m := (Nat.log2_lt hX0).2 hX
    have hbit : (X &&& (2 ^ (2 * m) - 2 ^ m)).testBit X.log2 = true := by
      rw [Nat.testBit_and, hmask, Nat.testBit_mul_pow_two,
        Nat.testBit_two_pow_sub_one, testBit_log2_self hX0]
      simp only [ge_iff_le, hjlo, decide_True, Bool.true_and, Bool.and_true]
      exact decide_eq_true (by omega)
    rw [hzero, Nat.zero_testBit] at hbit
    exact Bool.false_ne_true hbit
  · intro hlt
    apply Nat.eq_of_testBit_eq
    intro j
    rw [Nat.testBit_and, Nat.zero_testBit, hmask, Nat.testBit_mul_pow_two]
    rcases Nat.lt_or_ge j m with hj | hj
    · have : decide (j ≥ m) = false := by simp; omega
      rw [this, Bool.false_and, Bool.and_false]
    · have : X.testBit j = false :=
        Nat.testBit_lt_two_pow
          (Nat.lt_of_lt_of_le hlt (Nat.pow_le_pow_right (by omega) hj))
      rw [this, Bool.false_and]

theorem or_two_pow_eq_add {R k : Nat} (h : 2 ^ (k + 1) ∣ R) :
    R ||| 2 ^ k = R + 2 ^ k := by
  obtain ⟨q, hq⟩ := h
  subst hq
  exact (Nat.mul_add_lt_is_or (Nat.pow_lt_pow_succ (by omega)) q).symm

theorem log2_shiftRight {m X : Nat} (h : 2 ^ m ≤ X) :
    Nat.log2 X = Nat.log2 (X >>> m) + m := by
  have hX0 : X ≠ 0 := by have := Nat.two_pow_pos m; omega
  have hu : X >>> m = X / 2 ^ m := Nat.shiftRight_eq_div_pow X m
  have hu1 : 1 ≤ X >>> m := by
    rw [hu]; exact (Nat.one_le_div_iff (Nat.two_pow_pos _)).2 h
  have hne : X >>> m ≠ 0 := by omega
  have hlo : 2 ^ (X >>> m).log2 ≤ X >>> m := Nat.log2_self_le hne
  have hhi : X >>> m < 2 ^ ((X >>> m).log2 + 1) := Nat.lt_log2_self
  have hXlo : 2 ^ ((X >>> m).log2 + m) ≤ X := by
    rw [Nat.pow_add]
    calc 2 ^ (X >>> m).log2 * 2 ^ m ≤ (X >>> m) * 2 ^ m :=
          Nat.mul_le_mul_right _ hlo
      _ ≤ X := by rw [hu]; exact Nat.div_mul_le_self X (2 ^ m)
  have hXhi : X < 2 ^ ((X >>> m).log2 + 1 + m) := by
    rw [Nat.pow_add]
    have hstep : X < (X >>> m + 1) * 2 ^ m := by
      rw [hu]
      exact (Nat.div_lt_iff_lt_mul (Nat.two_pow_pos m)).1 (Nat.lt_succ_self _)
    calc X < (X >>> m + 1) * 2 ^ m := hstep
      _ ≤ 2 ^ ((X >>> m).log2 + 1) * 2 ^ m := Nat.mul_le_mul_right _ hhi
  have h1 : (X >>> m).log2 + m ≤ X.log2 := (Nat.le_log2 hX0).2 hXlo
  have h2 : X.log2 < (X >>> m).log2 + 1 + m := (Nat.log2_lt hX0).2 hXhi
  omega

theorem IntLog2Aux_correct :
    ∀ i, i ≤ 5 → ∀ X R, X < 2 ^ 2 ^ (i + 1) → 2 ^ (i + 1) ∣ R →
      IntLog2Aux (List.range (i + 1)).reverse X R = R + Nat.log2 X := by
  intro i
  induction i with
  | zero =>
    intro _ X R hX hR
    have hX4 : X < 4 := by simpa using hX
    have hXb : X < 2 ^ (2 * 1) := by omega
    show IntLog2Aux [0] X R = R + Nat.log2 X
    simp only [IntLog2Aux]
    have hb : b64.getD 0 0 = 2 ^ (2 * 1) - 2 ^ 1 := by decide
    have hs : S.getD 0 0 = 1 := by decide
    rw [hb, hs]
    split_ifs with hc
    · have hge : 2 ^ 1 ≤ X := by
        by_contra hlt
        exact hc ((and_block_eq_zero_iff (by omega) hXb).2 (by omega))
      have hlog : Nat.log2 X = 1 := by
        have hl1 : 1 ≤ X.log2 := (Nat.le_log2 (by omega)).2 hge
        have hl2 : X.log2 < 2 := (Nat.log2_lt (by omega)).2 (by omega)
        omega
      have hor : R ||| 1 = R + 1 := by
        have := or_two_pow_eq_add (k := 0) (R := R) (by simpa using hR)
        simpa using this
      omega
    · have hlt : X < 2 ^ 1 := by
        have hz : X &&& (2 ^ (2 * 1) - 2 ^ 1) = 0 := by omega
        exact (and_block_eq_zero_iff (by omega) hXb).1 hz
      have hlog : Nat.log2 X = 0 := by
        rcases (show X = 0 ∨ X = 1 by omega) with h | h
        · rw [h, Nat.log2_zero]
        · have hl : Nat.log2 X < 1 := (Nat.log2_lt (by omega)).2 (by omega)
          omega
      omega
  | succ i ih =>
    intro hle X R hX hR
    have hi4 : i ≤ 4 := by omega
    have hlist : (List.range (i + 2)).reverse
        = (i + 1) :: (List.range (i + 1)).reverse := by
      rw [List.range_succ, List.reverse_append, List.reverse_singleton,
        List.singleton_append]
    rw [hlist]
    simp only [IntLog2Aux]
    have hm : b64.getD (i + 1) 0 = 2 ^ (2 * 2 ^ (i + 1)) - 2 ^ 2 ^ (i + 1) := by
      interval_cases i <;> decide
    have hs : S.getD (i + 1) 0 = 2 ^ (i + 1) := by
      interval_cases i <;> decide
    rw [hm, hs]
    have hXbound : X < 2 ^ (2 * 2 ^ (i + 1)) := by
      have hexp : 2 ^ (i + 1 + 1) = 2 * 2 ^ (i + 1) := by
        rw [Nat.pow_succ, Nat.mul_comm]
      rw [← hexp]
      exact hX
    split_ifs with hc
    · have hge : 2 ^ 2 ^ (i + 1) ≤ X := by
        by_contra hlt
        exact hc ((and_block_eq_zero_iff (Nat.two_pow_pos _) hXbound).2 (by omega))
      have hor : R ||| 2 ^ (i + 1) = R + 2 ^ (i + 1) := or_two_pow_eq_add hR
      have hshift : X >>> 2 ^ (i + 1) < 2 ^ 2 ^ (i + 1) := by
        rw [Nat.shiftRight_eq_div_pow,
          Nat.div_lt_iff_lt_mul (Nat.two_pow_pos _)]
        calc X < 2 ^ (2 * 2 ^ (i + 1)) := hXbound
          _ = 2 ^ 2 ^ (i + 1) * 2 ^ 2 ^ (i + 1) := by
              rw [← Nat.pow_add, Nat.two_mul]
      have hdvd : 2 ^ (i + 1) ∣ R + 2 ^ (i + 1) :=
        Nat.dvd_add (dvd_trans (pow_dvd_pow 2 (by omega)) hR) dvd_rfl
      rw [hor, ih (by omega) _ _ hshift hdvd, log2_shiftRight hge]
      omega
    · have hz : X &&& (2 ^ (2 * 2 ^ (i + 1)) - 2 ^ 2 ^ (i + 1)) = 0 := by omega
      have hlt : X < 2 ^ 2 ^ (i + 1) :=
        (and_block_eq_zero_iff (Nat.two_pow_pos _) hXbound).1 hz
      exact ih (by omega) X R hlt (dvd_trans (pow_dvd_pow 2 (by omega)) hR)

/-- On every input that fits in a 64-bit word, `IntLog2` computes `Nat.log2`
(the position of the most significant set bit; both return 0 at 0). -/
theorem IntLog2_eq_log2 {X : Nat} (h : X < 2 ^ 64) : IntLog2 X = Nat.log2 X := by
  have hmain := IntLog2Aux_correct 5 (by omega) X 0 (by norm_num at h ⊢; omega)
    (dvd_zero _)
  simpa [IntLog2, Log2Iterations] using hmain

/-! ### Facts about the constant tables (64-bit build) -/

theorem Primes_pos : ∀ i, i < 42 → 0 < Primes i := by decide

theorem Primes_lt_NP : ∀ i, i < 42 → Primes i < 2 ^ (12 + i) := by decide

theorem NP_lt_Primes_succ : ∀ i, i < 41 → 2 ^ (12 + i) ≤ Primes (i + 1) := by
  decide

theorem PrimesPrev_le_pow : ∀ i, i < 42 → PrimesPrev i ≤ 2 ^ (11 + i) := by decide

theorem Primes_le_mono : ∀ j, j < 42 → ∀ i, i ≤ j → Primes i ≤ Primes j := by decide

theorem NextPower_pow : ∀ i, i < 42 → NextPower i + 1 = 2 ^ (12 + i) := by decide

theorem Primes_41_lt : Primes 41 < 2 ^ 53 := by decide

theorem PrimesPrev_succ (i : Nat) : PrimesPrev (i + 1) = Primes i := rfl

theorem PrimesPrev_zero : PrimesPrev 0 = 0 := rfl

/-! ## Slot addressing (LayeredHashMap.h)

`GetLayer` and `GetSlot` are member functions of `LayeredHashMap` but read
only the constant tables, so they are embedded as pure functions of the raw
hash.  `GetSlot` mirrors the `size_t` expression `rawHash - Primes[LayerIdx - 1]`
(through the shifted base pointer, with the possible unsigned wrap-around
made explicit). -/

/-- `GetLayer` from LayeredHashMap.h; `(rawHash < LowestNextPower)` is the
bool-to-`size_t` conversion of the C++ source. -/
def GetLayer (rawHash : Nat) : Nat :=
  let LayerIdx :=
    IntLog2 (rawHash + (if rawHash < LowestNextPower then 1 else 0) * LowestNextPower)
      - LowestExponent
  LayerIdx + (if Primes LayerIdx ≤ rawHash then 1 else 0)

/-- `GetSlot` from LayeredHashMap.h: `rawHash - Primes[LayerIdx - 1]` in
`size_t` arithmetic (wrap-around modulo `2^64` made explicit). -/
def GetSlot (rawHash LayerIdx : Nat) : Nat :=
  (rawHash + (2 ^ 64 - PrimesPrev LayerIdx)) % 2 ^ 64

theorem getSlot_eq {rawHash LayerIdx : Nat} (h1 : PrimesPrev LayerIdx ≤ rawHash)
    (h2 : rawHash < 2 ^ 64) :
    GetSlot rawHash LayerIdx = rawHash - PrimesPrev LayerIdx := by
  unfold GetSlot
  omega

/-- Central soundness of the address derivation: whenever the raw hash is
below the current prime bound `Primes last` (with `last < MaxLayerCount`,
which `RawHash` guarantees), the derived layer is sandwiched by the prime
table, is at most `last`, and the derived offset is inside the layer. -/
theorem address_sound {last rawHash : Nat} (hlast : last < MaxLayerCount)
    (hraw : rawHash < Primes last) :
    PrimesPrev (GetLayer rawHash) ≤ rawHash ∧
    rawHash < Primes (GetLayer rawHash) ∧
    GetLayer rawHash ≤ last ∧
    GetSlot rawHash (GetLayer rawHash)
      < Primes (GetLayer rawHash) - PrimesPrev (GetLayer rawHash) := by
  have h42 : MaxLayerCount = 42 := rfl
  rw [h42] at hlast
  have p11 : (2 : Nat) ^ 11 = 2048 := by norm_num
  have p12 : (2 : Nat) ^ 12 = 4096 := by norm_num
  have hr53 : rawHash < 2 ^ 53 :=
    lt_of_lt_of_le hraw
      (le_trans (Primes_le_mono 41 (by omega) last (by omega)) (le_of_lt Primes_41_lt))
  have hr64 : rawHash < 2 ^ 64 := lt_of_lt_of_le hr53 (by norm_num)
  -- the bit-twiddled quantity
  set Y := rawHash + (if rawHash < LowestNextPower then 1 else 0) * LowestNextPower
    with hYdef
  have hLNP : LowestNextPower = 2048 := rfl
  have hY1 : 2048 ≤ Y := by
    rw [hYdef, hLNP]
    by_cases h : rawHash < 2048
    · simp [h]
    · simp [h]; omega
  have hY64 : Y < 2 ^ 64 := by
    rw [hYdef, hLNP]
    have h64 : (2 : Nat) ^ 53 + 2048 < 2 ^ 64 := by norm_num
    by_cases h : rawHash < 2048 <;> simp [h] <;> omega
  have hY0 : Y ≠ 0 := by omega
  have hlogY : 11 ≤ Nat.log2 Y := (Nat.le_log2 hY0).2 (by omega)
  set k := Nat.log2 Y - 11 with hkdef
  have hk11 : Nat.log2 Y = 11 + k := by omega
  -- (a)  rawHash < 2 ^ (12 + k)
  have ha : rawHash < 2 ^ (12 + k) := by
    by_cases h : rawHash < 2048
    · have hklow : Nat.log2 Y < 12 := by
        apply (Nat.log2_lt hY0).2
        rw [hYdef, hLNP]
        simp [h]
        omega
      have hk0 : k = 0 := by omega
      rw [hk0, p12]
      omega
    · have hYr : Y = rawHash := by rw [hYdef, hLNP]; simp [h]
      have hlt : rawHash < 2 ^ (Nat.log2 Y + 1) := by
        rw [← hYr]; exact Nat.lt_log2_self
      calc rawHash < 2 ^ (Nat.log2 Y + 1) := hlt
        _ = 2 ^ (12 + k) := by rw [hk11]; ring_nf
  -- (b)  1 ≤ k → 2 ^ (11 + k) ≤ rawHash
  have hb : 1 ≤ k → 2 ^ (11 + k) ≤ rawHash := by
    intro hk1
    by_cases h : rawHash < 2048
    · exfalso
      have hklow : Nat.log2 Y < 12 := by
        apply (Nat.log2_lt hY0).2
        rw [hYdef, hLNP]
        simp [h]
        omega
      omega
    · have hYr : Y = rawHash := by rw [hYdef, hLNP]; simp [h]
      have hle : 2 ^ (11 + k) ≤ Y := by
        rw [← hk11]; exact Nat.log2_self_le hY0
      rw [hYr] at hle
      exact hle
  -- k is at most `last`
  have hklast : k ≤ last := by
    by_contra hgt
    have hk1 : 1 ≤ k := by omega
    have h1 : 2 ^ (12 + last) ≤ 2 ^ (11 + k) :=
      Nat.pow_le_pow_right (by omega) (by omega)
    have h2 : rawHash < 2 ^ (12 + last) := lt_of_lt_of_le hraw
      (le_of_lt (Primes_lt_NP last (by omega)))
    have := hb hk1
    omega
  have hk41 : k < 42 := by omega
  -- unfold GetLayer and identify its LayerIdx with k
  have hGL : GetLayer rawHash = k + (if Primes k ≤ rawHash then 1 else 0) := by
    simp only [GetLayer, ← hYdef]
    rw [IntLog2_eq_log2 hY64, hk11]
    have hE : LowestExponent = 11 := rfl
    rw [hE, Nat.add_sub_cancel_left]
  by_cases hcorr : Primes k ≤ rawHash
  · -- one-step correction: the layer is k + 1
    have hklt : k < last := by
      rcases Nat.lt_or_ge k last with h | h
      · exact h
      · exfalso
        have hkl : k = last := by omega
        rw [hkl] at hcorr
        omega
    have hGL1 : GetLayer rawHash = k + 1 := by rw [hGL, if_pos hcorr]
    refine ⟨?_, ?_, ?_, ?_⟩
    · rw [hGL1, PrimesPrev_succ]; exact hcorr
    · rw [hGL1]
      exact lt_of_lt_of_le ha (NP_lt_Primes_succ k (by omega))
    · rw [hGL1]; omega
    · rw [hGL1, getSlot_eq (by rw [PrimesPrev_succ]; exact hcorr) hr64,
        PrimesPrev_succ]
      have := lt_of_lt_of_le ha (NP_lt_Primes_succ k (by omega))
      omega
  · -- no correction: the layer is k
    have hGL0 : GetLayer rawHash = k := by rw [hGL, if_neg hcorr]; omega
    have hprev : PrimesPrev k ≤ rawHash := by
      match hk : k with
      | 0 => rw [PrimesPrev_zero]; omega
      | j + 1 =>
        have h1 : PrimesPrev (j + 1) ≤ 2 ^ (11 + (j + 1)) :=
          PrimesPrev_le_pow (j + 1) (by omega)
        have h2 : 2 ^ (11 + (j + 1)) ≤ rawHash := hb (by omega)
        omega
    refine ⟨?_, ?_, ?_, ?_⟩
    · rw [hGL0]; exact hprev
    · rw [hGL0]; omega
    · rw [hGL0]; exact hklast
    · rw [hGL0, getSlot_eq hprev hr64]
      omega

/-! ## AtomicRWLock.h constants

In a sequential execution every lock acquisition succeeds at once and every
RAII wrapper releases before the next operation starts, so the lock word of
a slot at rest is exactly the value stored by the last `write_unlock`: the
occupancy bit alone (`EMPTY` or `POPULATED`), with `WRITER_BIT` clear and
`READER_COUNT` zero.  `read_lock`/`write_lock` return the captured
`VALUE_BITS`, modelled below as `Lock &&& VALUE_BITS_MASK`. -/

def EMPTY : Nat := 0x00000000

def POPULATED : Nat := 0x80000000

def VALUE_BITS_MASK : Nat := 0x80000000

def WRITER_BIT_MASK : Nat := 0x40000000

def READER_COUNT_MASK : Nat := 0x3FFFFFFF

/-! ## ThreadManager (PlatformAtomic.h, ThreadManager.h)

The repository compiles under `_MSC_VER` on x86/AMD64, where
`INCREMENT(X)` is `(++X)` — it yields the value *after* the increment —
and `ATOMIC_READ`/`ATOMIC_WRITE` are plain aligned accesses.  `sInt` is a
signed 64-bit integer, `uInt` its unsigned counterpart; the conversions
between them are the usual two's-complement reinterpretations. -/

/-- `uInt(i)` for a signed value `i`: reduction modulo `2^64`. -/
def uIntOf (i : Int) : Nat := (i % (2 ^ 64 : Int)).toNat

/-- `_sInt(n)` for an unsigned value `n`: two's-complement reinterpretation. -/
def sIntOfuInt (n : Nat) : Int :=
  if n < 2 ^ 63 then (n : Int) else (n : Int) - 2 ^ 64

/-- Models `_sInt(Threshold * MAX_ERROR)` with `MAX_ERROR = 1e-5`
(ThreadManager.h): the real product `Threshold / 100000` truncated toward
zero.  The C++ computation goes through `double`; for every threshold the
manager actually produces in the modelled executions (prime-table values,
where the product is far from an integer boundary) the double rounding and
the exact rational value truncate identically, and no claim in this
development depends on the exact margin. -/
def marginFloor (Threshold : Nat) : Int := Int.ofNat (Threshold / 100000)

/-- Number of ThreadValues registered with the instance's manager: the
sequential executions modelled here have a single thread, whose thread-local
`Values` vector registers exactly one counter per manager. -/
def RegistrySize : Nat := 1

/-- A manager interaction of `ThreadValue::Increment`/`Decrement`, recorded
as an event so that "calls `UpdateManager`" is an observable of the model. -/
inductive ManagerCall where
  | updateManager
  | waitForGlobalValue
deriving DecidableEq

/-- The fields of one `ThreadValue` (ThreadManager.h). -/
structure ThreadValueState where
  Value : Int
  Threshold : Int

/-- `ThreadValue::Increment`: `if (INCREMENT(Value) >= ATOMIC_READ(Threshold))
Manager.UpdateManager(); Manager.WaitForGlobalValue();` with the MSVC
`INCREMENT(X) = (++X)` (the value after the increment).  The manager calls
are returned as the event trace. -/
def ThreadValue_Increment (tv : ThreadValueState) : ThreadValueState × List ManagerCall :=
  let newValue := tv.Value + 1
  ({ tv with Value := newValue },
    (if tv.Threshold ≤ newValue then [ManagerCall.updateManager] else [])
      ++ [ManagerCall.waitForGlobalValue])

/-- `ThreadValue::Decrement`: `DECREMENT(Value); Manager.WaitForGlobalValue();`. -/
def ThreadValue_Decrement (tv : ThreadValueState) : ThreadValueState × List ManagerCall :=
  ({ tv with Value := tv.Value - 1 }, [ManagerCall.waitForGlobalValue])

/-! ## The map state (LayeredHashMap.h) -/

/-- A `Slot`: the RW lock word, the main pair and the overflow vector.  The
C++ `Main` is a default-constructed pair until a writer stores into it; the
model likewise keeps an (arbitrary) pair there, and the occupancy bit of
`Lock` says whether it is meaningful. -/
structure Slot (K V : Type) where
  Lock : Nat
  Main : K × V
  Collisions : List (K × V)

/-- The state of one `LayeredHashMap` instance together with the counter the
executing thread holds for it.  `Slots` is total over coordinates; the
coordinates actually allocated are layers `0 ≤ l < AllocatedLayers` with
offsets below `layerSize l`, and the bounds claims show the operations stay
inside them.  `Value`/`Threshold` are the thread's `ThreadValue` fields and
`DTOR_ThreadValuesSum` the manager's dead sum (0 while the thread lives). -/
@[ext]
structure MapState (K V : Type) where
  Slots : Nat → Nat → Slot K V
  LayerLastIdx : Nat
  AllocatedLayers : Nat
  DTOR_ThreadValuesSum : Int
  Value : Int
  Threshold : Int

/-- Length of layer `i`: `Primes[i] - Primes[i-1]` (`MAP_ALLOC` sizes). -/
def layerSize (i : Nat) : Nat := Primes i - PrimesPrev i

section MapModel

variable {K V : Type}

/-- Overwrite the slot at coordinates `(l, o)`. -/
def setSlot (st : MapState K V) (l o : Nat) (s : Slot K V) : MapState K V :=
  { st with Slots := fun l' o' => if l' = l ∧ o' = o then s else st.Slots l' o' }

/-- Store `w` into the lock word of the slot at `(l, o)` (the value a
`WriteWrapper` destructor releases via `write_unlock`). -/
def setLock (st : MapState K V) (l o w : Nat) : MapState K V :=
  setSlot st l o { st.Slots l o with Lock := w }

/-- `AllocateLayer` from LayeredHashMap.h: `LayerLastIdx++` and
`MAP_ALLOC(LayerLastIdx, NewPrime - OldPrime)`.  The slot function already
hosts default slots everywhere, so the resize shows up in `AllocatedLayers`.
The element migration announced by the function's own documentation is the
part marked `/* To do ... */` in the source: no slot content changes. -/
def AllocateLayer (st : MapState K V) : MapState K V :=
  { st with LayerLastIdx := st.LayerLastIdx + 1,
            AllocatedLayers := st.LayerLastIdx + 2 }

/-- The two indices (relative to the shifted `Primes` pointer) at which
`AllocateLayer` reads the prime table: `Primes[LayerLastIdx++]` and, after
the increment, `Primes[LayerLastIdx]`. -/
def AllocateLayerPrimesIdx (st : MapState K V) : List Nat :=
  [st.LayerLastIdx, st.LayerLastIdx + 1]

/-- `RESIZE_FUNC`, the growth callback installed by `MAP_INIT`: if the
global value exceeds `Primes[LayerLastIdx]`, allocate a layer; return the
(possibly new) `Primes[LayerLastIdx]`.  The lambda captures the map, so it
is modelled as a state transformer returning the target. -/
def RESIZE_FUNC (st : MapState K V) (GlobalValue : Nat) : MapState K V × Nat :=
  let st' := if Primes st.LayerLastIdx < GlobalValue then AllocateLayer st else st
  (st', Primes st'.LayerLastIdx)

/-- `ThreadManager::_UpdateManagerInternal` for this instance's manager, in
a sequential execution (one registered ThreadValue): compute the global
value, run the callback, and set the counter's threshold from the margin.
The mixed signed/unsigned C++ conversions are made explicit. -/
def UpdateManagerInternal (st : MapState K V) : MapState K V :=
  let GlobalValue : Nat := uIntOf (st.Value + st.DTOR_ThreadValuesSum)
  let res := RESIZE_FUNC st GlobalValue
  let Threshold := res.2
  let NewMargin : Nat :=
    uIntOf (max (sIntOfuInt (uIntOf ((Threshold : Int) - (GlobalValue : Int))))
        (marginFloor Threshold))
      / RegistrySize
  { res.1 with Threshold := res.1.Value + sIntOfuInt NewMargin }

/-- `ThreadManager::UpdateManager`: sequentially the try-lock always
succeeds, so it runs the internal update. -/
def UpdateManager (st : MapState K V) : MapState K V := UpdateManagerInternal st

/-- `ThreadValue::Increment` acting on the instance state (sequentially
`WaitForGlobalValue` returns at once): `++Value`, and when the new value
reaches the threshold, run the manager update (whose callback may grow the
table). -/
def Increment (st : MapState K V) : MapState K V :=
  let st' := { st with Value := st.Value + 1 }
  if st'.Threshold ≤ st'.Value then UpdateManager st' else st'

/-- `ThreadValue::Decrement` acting on the instance state: `--Value`. -/
def Decrement (st : MapState K V) : MapState K V :=
  { st with Value := st.Value - 1 }

/-- `ThreadManager::GetGlobalValue` in a quiesced (sequential) state:
`uInt(sum of ThreadValues + DTOR_ThreadValuesSum)`. -/
def GetGlobalValue (st : MapState K V) : Nat :=
  uIntOf (st.Value + st.DTOR_ThreadValuesSum)

/-- `LayeredHashMap::GetSize`. -/
def GetSize (st : MapState K V) : Nat := GetGlobalValue st

/-- `LayeredHashMap::RawHash`:
`(Hash()(Key) & NextPower[LayerLastIdx]) % Primes[LayerLastIdx]`. -/
def RawHash (Hash : K → Nat) (st : MapState K V) (Key : K) : Nat :=
  (Hash Key &&& NextPower st.LayerLastIdx) % Primes st.LayerLastIdx

/-- The `(layer, offset)` pair a public operation derives for a key: the
three lines `rawHash := RawHash(Key); LayerIdx := GetLayer(rawHash);
SlotIdx := GetSlot(rawHash, LayerIdx)` shared by Write, Delete and Read. -/
def AddressOf (Hash : K → Nat) (st : MapState K V) (Key : K) : Nat × Nat :=
  let rawHash := RawHash Hash st Key
  let LayerIdx := GetLayer rawHash
  (LayerIdx, GetSlot rawHash LayerIdx)

/-- `(*CollisionIt).second = Value`: overwrite the `.second` of element `i`. -/
def setSnd : List (K × V) → Nat → V → List (K × V)
  | [], _, _ => []
  | KeyVal :: rest, 0, v => (KeyVal.1, v) :: rest
  | KeyVal :: rest, i + 1, v => KeyVal :: setSnd rest i v

/-- `LayeredHashMap::Write`. -/
def Write (Hash : K → Nat) (Pred : K → K → Bool) (st : MapState K V)
    (Key : K) (Val : V) : MapState K V :=
  let rawHash := RawHash Hash st Key
  let LayerIdx := GetLayer rawHash
  let SlotIdx := GetSlot rawHash LayerIdx
  let slot := st.Slots LayerIdx SlotIdx
  let VALUE := slot.Lock &&& VALUE_BITS_MASK
  if VALUE = EMPTY then
    let st1 := setSlot st LayerIdx SlotIdx { slot with Main := (Key, Val) }
    let st2 := Increment st1
    setLock st2 LayerIdx SlotIdx POPULATED
  else if Pred slot.Main.1 Key then
    let st1 := setSlot st LayerIdx SlotIdx { slot with Main := (slot.Main.1, Val) }
    setLock st1 LayerIdx SlotIdx POPULATED
  else
    match slot.Collisions.findIdx? (fun KeyVal => Pred KeyVal.1 Key) with
    | none =>
      let st1 := setSlot st LayerIdx SlotIdx
        { slot with Collisions := slot.Collisions ++ [(Key, Val)] }
      let st2 := Increment st1
      setLock st2 LayerIdx SlotIdx POPULATED
    | some i =>
      let st1 := setSlot st LayerIdx SlotIdx
        { slot with Collisions := setSnd slot.Collisions i Val }
      setLock st1 LayerIdx SlotIdx POPULATED

/-- `LayeredHashMap::Delete`: returns the new state and `deletionOccured`. -/
def Delete (Hash : K → Nat) (Pred : K → K → Bool) (st : MapState K V)
    (Key : K) : MapState K V × Bool :=
  let rawHash := RawHash Hash st Key
  let LayerIdx := GetLayer rawHash
  let SlotIdx := GetSlot rawHash LayerIdx
  let slot := st.Slots LayerIdx SlotIdx
  let VALUE := slot.Lock &&& VALUE_BITS_MASK
  if VALUE = EMPTY then
    (setLock st LayerIdx SlotIdx VALUE, false)
  else if Pred slot.Main.1 Key then
    if slot.Collisions.isEmpty then
      (setLock (Decrement st) LayerIdx SlotIdx EMPTY, true)
    else
      let st1 := setSlot st LayerIdx SlotIdx
        { slot with Main := slot.Collisions.getLastD slot.Main,
                    Collisions := slot.Collisions.dropLast }
      (setLock (Decrement st1) LayerIdx SlotIdx VALUE, true)
  else
    match slot.Collisions.findIdx? (fun KeyVal => Pred KeyVal.1 Key) with
    | some i =>
      let st1 := setSlot st LayerIdx SlotIdx
        { slot with Collisions :=
            (slot.Collisions.set i (slot.Collisions.getLastD slot.Main)).dropLast }
      (setLock (Decrement st1) LayerIdx SlotIdx VALUE, true)
    | none =>
      (setLock st LayerIdx SlotIdx VALUE, false)

/-- `LayeredHashMap::Read`: `none` models the `std::out_of_range` throw
(*NotFound*).  The read lock's increment/decrement cancel, so sequentially
the state is untouched. -/
def Read (Hash : K → Nat) (Pred : K → K → Bool) (st : MapState K V)
    (Key : K) : Option V :=
  let rawHash := RawHash Hash st Key
  let LayerIdx := GetLayer rawHash
  let SlotIdx := GetSlot rawHash LayerIdx
  let slot := st.Slots LayerIdx SlotIdx
  let VALUE := slot.Lock &&& VALUE_BITS_MASK
  if VALUE = EMPTY then
    none
  else if Pred slot.Main.1 Key then
    some slot.Main.2
  else
    match slot.Collisions.find? (fun KeyVal => Pred KeyVal.1 Key) with
    | some KeyVal => some KeyVal.2
    | none => none

/-- The map state right after `LayeredHashMap()` (instance acquired,
`MAP_INIT` ran: callback installed, layer 0 of `Primes[0]` slots allocated)
and after the calling thread's `ThreadValue` registered itself on first use
(`ConstructThreadValue` runs `_UpdateManagerInternal`, which initialises the
threshold; the C++ `Threshold` field is uninitialised before that first
update, so its start value below is irrelevant). -/
def initState [Inhabited K] [Inhabited V] : MapState K V :=
  UpdateManagerInternal
    { Slots := fun _ _ => { Lock := EMPTY, Main := default, Collisions := [] },
      LayerLastIdx := 0, AllocatedLayers := 1,
      DTOR_ThreadValuesSum := 0, Value := 0, Threshold := 0 }

/-- The pairs a slot logically holds: main pair plus overflow list when the
occupancy bit is set, nothing otherwise. -/
def slotPairs (s : Slot K V) : List (K × V) :=
  if s.Lock &&& VALUE_BITS_MASK = EMPTY then [] else s.Main :: s.Collisions

/-- All pairs stored in the table (over the allocated region). -/
def storedPairs (st : MapState K V) : List (K × V) :=
  (List.range (st.LayerLastIdx + 1)).flatMap fun l =>
    (List.range (layerSize l)).flatMap fun o => slotPairs (st.Slots l o)

/-- No pair with a `Pred`-equal key is stored. -/
def absentKey (Pred : K → K → Bool) (st : MapState K V) (Key : K) : Prop :=
  ∀ p ∈ storedPairs st, Pred p.1 Key = false

/-- Per-slot invariant (spec §3): the at-rest lock word is exactly the
occupancy bit, and the overflow list is meaningful (non-empty) only when the
occupancy bit says `Main` holds a valid pair. -/
def SlotInv (s : Slot K V) : Prop :=
  (s.Lock = EMPTY ∨ s.Lock = POPULATED) ∧ (s.Lock = EMPTY → s.Collisions = [])

/-- The slot invariant at every coordinate. -/
def SlotInvAll (st : MapState K V) : Prop := ∀ l o, SlotInv (st.Slots l o)

/-- Representation invariant of a consistent (growth-free) map state: the
table is not exhausted, every slot satisfies the slot invariant, and every
stored pair sits at the address its key currently derives to. -/
def Inv (Hash : K → Nat) (st : MapState K V) : Prop :=
  st.LayerLastIdx < MaxLayerCount ∧ SlotInvAll st ∧
  ∀ l o, l < st.LayerLastIdx + 1 → o < layerSize l →
    ∀ p ∈ slotPairs (st.Slots l o), AddressOf Hash st p.1 = (l, o)

/-! ### Basic facts about the model operations -/

theorem setSlot_Slots (st : MapState K V) (l o : Nat) (s : Slot K V) (l' o' : Nat) :
    (setSlot st l o s).Slots l' o' = if l' = l ∧ o' = o then s else st.Slots l' o' :=
  rfl

theorem setSlot_Slots_self (st : MapState K V) (l o : Nat) (s : Slot K V) :
    (setSlot st l o s).Slots l o = s := by
  rw [setSlot_Slots, if_pos ⟨rfl, rfl⟩]

theorem setSlot_Slots_ne (st : MapState K V) (l o : Nat) (s : Slot K V)
    {l' o' : Nat} (h : ¬(l' = l ∧ o' = o)) :
    (setSlot st l o s).Slots l' o' = st.Slots l' o' := by
  rw [setSlot_Slots, if_neg h]

theorem setSlot_self {st : MapState K V} {l o : Nat} {s : Slot K V}
    (h : st.Slots l o = s) : setSlot st l o s = st := by
  have hs : (fun l' o' => if l' = l ∧ o' = o then s else st.Slots l' o') = st.Slots := by
    funext l' o'
    split
    · next hc => rw [← h, hc.1, hc.2]
    · rfl
  unfold setSlot
  rw [hs]

theorem AllocateLayer_Slots (st : MapState K V) :
    (AllocateLayer st).Slots = st.Slots := rfl

theorem UpdateManagerInternal_Slots (st : MapState K V) :
    (UpdateManagerInternal st).Slots = st.Slots := by
  unfold UpdateManagerInternal RESIZE_FUNC
  dsimp only
  split <;> rfl

theorem Increment_Slots (st : MapState K V) :
    (Increment st).Slots = st.Slots := by
  unfold Increment UpdateManager
  dsimp only
  split
  · rw [UpdateManagerInternal_Slots]
  · rfl

theorem Decrement_Slots (st : MapState K V) :
    (Decrement st).Slots = st.Slots := rfl

theorem setLock_Slots_self (st : MapState K V) (l o w : Nat) :
    (setLock st l o w).Slots l o = { st.Slots l o with Lock := w } :=
  setSlot_Slots_self st l o _

theorem setLock_Slots_ne (st : MapState K V) (l o w : Nat)
    {l' o' : Nat} (h : ¬(l' = l ∧ o' = o)) :
    (setLock st l o w).Slots l' o' = st.Slots l' o' :=
  setSlot_Slots_ne st l o _ h

theorem initState_Slots [Inhabited K] [Inhabited V] :
    (initState : MapState K V).Slots
      = fun _ _ => { Lock := EMPTY, Main := default, Collisions := [] } := rfl

theorem initState_LayerLastIdx [Inhabited K] [Inhabited V] :
    (initState : MapState K V).LayerLastIdx = 0 := rfl

/-- The slot a public operation addresses for `Key`. -/
def slotAt (Hash : K → Nat) (st : MapState K V) (Key : K) : Slot K V :=
  st.Slots (AddressOf Hash st Key).1 (AddressOf Hash st Key).2

theorem rawHash_lt (Hash : K → Nat) (st : MapState K V) (Key : K)
    (h : st.LayerLastIdx < MaxLayerCount) :
    RawHash Hash st Key < Primes st.LayerLastIdx := by
  have h42 : MaxLayerCount = 42 := rfl
  unfold RawHash
  exact Nat.mod_lt _ (Primes_pos _ (h42 ▸ h))

theorem addressOf_bounds (Hash : K → Nat) (st : MapState K V) (Key : K)
    (h : st.LayerLastIdx < MaxLayerCount) :
    (AddressOf Hash st Key).1 ≤ st.LayerLastIdx ∧
    (AddressOf Hash st Key).2 < layerSize (AddressOf Hash st Key).1 := by
  have hr := rawHash_lt Hash st Key h
  have hs := address_sound h hr
  unfold AddressOf layerSize
  exact ⟨hs.2.2.1, hs.2.2.2⟩

/-! Branch characterizations of `Read` and `Delete` in terms of the
addressed slot's at-rest state. -/

theorem empty_and_mask : EMPTY &&& VALUE_BITS_MASK = EMPTY := by decide

theorem populated_and_mask : POPULATED &&& VALUE_BITS_MASK = POPULATED := by decide

theorem populated_eq_empty_false : (POPULATED = EMPTY) = False :=
  eq_false (by decide)

theorem setLock_self (st : MapState K V) (l o : Nat) {w : Nat}
    (h : (st.Slots l o).Lock = w) : setLock st l o w = st := by
  unfold setLock
  exact setSlot_self (by rw [← h])

theorem Read_empty {Hash : K → Nat} {Pred : K → K → Bool} {st : MapState K V}
    {Key : K} (h : (slotAt Hash st Key).Lock = EMPTY) :
    Read Hash Pred st Key = none := by
  simp only [slotAt, AddressOf] at h
  simp only [Read, h, empty_and_mask, eq_self_iff_true, if_true]

theorem Read_populated_main {Hash : K → Nat} {Pred : K → K → Bool}
    {st : MapState K V} {Key : K}
    (h : (slotAt Hash st Key).Lock = POPULATED)
    (hm : Pred (slotAt Hash st Key).Main.1 Key = true) :
    Read Hash Pred st Key = some (slotAt Hash st Key).Main.2 := by
  simp only [slotAt, AddressOf] at h hm ⊢
  simp only [Read, h, hm, populated_and_mask, populated_eq_empty_false, if_false,
    if_true]

theorem Read_populated_notfound {Hash : K → Nat} {Pred : K → K → Bool}
    {st : MapState K V} {Key : K}
    (h : (slotAt Hash st Key).Lock = POPULATED)
    (hm : Pred (slotAt Hash st Key).Main.1 Key = false)
    (hc : (slotAt Hash st Key).Collisions.find?
        (fun KeyVal => Pred KeyVal.1 Key) = none) :
    Read Hash Pred st Key = none := by
  simp only [slotAt, AddressOf] at h hm hc
  simp only [Read, h, hm, hc, populated_and_mask, populated_eq_empty_false,
    if_false, Bool.false_eq_true]

theorem Read_populated_collision {Hash : K → Nat} {Pred : K → K → Bool}
    {st : MapState K V} {Key : K} {KeyVal : K × V}
    (h : (slotAt Hash st Key).Lock = POPULATED)
    (hm : Pred (slotAt Hash st Key).Main.1 Key = false)
    (hc : (slotAt Hash st Key).Collisions.find?
        (fun kv => Pred kv.1 Key) = some KeyVal) :
    Read Hash Pred st Key = some KeyVal.2 := by
  simp only [slotAt, AddressOf] at h hm hc
  simp only [Read, h, hm, hc, populated_and_mask, populated_eq_empty_false,
    if_false, Bool.false_eq_true]

theorem Delete_empty {Hash : K → Nat} {Pred : K → K → Bool} {st : MapState K V}
    {Key : K} (h : (slotAt Hash st Key).Lock = EMPTY) :
    Delete Hash Pred st Key = (st, false) := by
  simp only [slotAt, AddressOf] at h
  simp only [Delete, h, empty_and_mask, eq_self_iff_true, if_true]
  rw [setLock_self st _ _ h]

theorem Delete_populated_notfound {Hash : K → Nat} {Pred : K → K → Bool}
    {st : MapState K V} {Key : K}
    (h : (slotAt Hash st Key).Lock = POPULATED)
    (hm : Pred (slotAt Hash st Key).Main.1 Key = false)
    (hc : (slotAt Hash st Key).Collisions.findIdx?
        (fun kv => Pred kv.1 Key) = none) :
    Delete Hash Pred st Key = (st, false) := by
  simp only [slotAt, AddressOf] at h hm hc
  simp only [Delete, h, hm, hc, populated_and_mask, populated_eq_empty_false,
    if_false, Bool.false_eq_true]
  rw [setLock_self st _ _ h]

/-! Stored pairs and slot-content lemmas -/

theorem mem_storedPairs_of (st : MapState K V) {l o : Nat} {p : K × V}
    (hl : l < st.LayerLastIdx + 1) (ho : o < layerSize l)
    (hp : p ∈ slotPairs (st.Slots l o)) : p ∈ storedPairs st := by
  unfold storedPairs
  rw [List.mem_flatMap]
  refine ⟨l, List.mem_range.2 hl, ?_⟩
  rw [List.mem_flatMap]
  exact ⟨o, List.mem_range.2 ho, hp⟩

theorem exists_of_mem_storedPairs {st : MapState K V} {p : K × V}
    (h : p ∈ storedPairs st) :
    ∃ l o, l < st.LayerLastIdx + 1 ∧ o < layerSize l ∧
      p ∈ slotPairs (st.Slots l o) := by
  unfold storedPairs at h
  rw [List.mem_flatMap] at h
  obtain ⟨l, hl, h⟩ := h
  rw [List.mem_flatMap] at h
  obtain ⟨o, ho, hp⟩ := h
  exact ⟨l, o, List.mem_range.1 hl, List.mem_range.1 ho, hp⟩

theorem slotPairs_mem_lock {s : Slot K V} {p : K × V} (h : p ∈ slotPairs s) :
    ¬(s.Lock &&& VALUE_BITS_MASK = EMPTY) := by
  unfold slotPairs at h
  intro hc
  rw [if_pos hc] at h
  exact absurd h (List.not_mem_nil p)

theorem slotPairs_populated {s : Slot K V}
    (h : ¬(s.Lock &&& VALUE_BITS_MASK = EMPTY)) :
    slotPairs s = s.Main :: s.Collisions := by
  unfold slotPairs
  rw [if_neg h]

theorem Inv_initState [Inhabited K] [Inhabited V] (Hash : K → Nat) :
    Inv Hash (initState : MapState K V) := by
  refine ⟨by rw [initState_LayerLastIdx]; decide, ?_, ?_⟩
  · intro l o
    rw [initState_Slots]
    exact ⟨Or.inl rfl, fun _ => rfl⟩
  · intro l o _ _ p hp
    rw [initState_Slots] at hp
    simp [slotPairs, empty_and_mask] at hp

theorem absentKey_initState [Inhabited K] [Inhabited V] (Pred : K → K → Bool)
    (Key : K) : absentKey Pred (initState : MapState K V) Key := by
  intro p hp
  obtain ⟨l, o, _, _, hp'⟩ := exists_of_mem_storedPairs hp
  rw [initState_Slots] at hp'
  simp [slotPairs, empty_and_mask] at hp'

/-! Remaining `Delete` branches (a deletion happens) and the `Write` slot
footprint. -/

theorem Delete_populated_main_last {Hash : K → Nat} {Pred : K → K → Bool}
    {st : MapState K V} {Key : K}
    (h : (slotAt Hash st Key).Lock = POPULATED)
    (hm : Pred (slotAt Hash st Key).Main.1 Key = true)
    (hc : (slotAt Hash st Key).Collisions = []) :
    Delete Hash Pred st Key =
      (setLock (Decrement st) (AddressOf Hash st Key).1
        (AddressOf Hash st Key).2 EMPTY, true) := by
  simp only [slotAt, AddressOf] at h hm hc ⊢
  simp only [Delete, h, hm, hc, populated_and_mask, populated_eq_empty_false,
    if_false, if_true, List.isEmpty_nil, eq_self_iff_true]

theorem Delete_populated_main_swap {Hash : K → Nat} {Pred : K → K → Bool}
    {st : MapState K V} {Key : K}
    (h : (slotAt Hash st Key).Lock = POPULATED)
    (hm : Pred (slotAt Hash st Key).Main.1 Key = true)
    (hc : (slotAt Hash st Key).Collisions ≠ []) :
    Delete Hash Pred st Key =
      (setLock
        (Decrement (setSlot st (AddressOf Hash st Key).1 (AddressOf Hash st Key).2
          { slotAt Hash st Key with
              Main := (slotAt Hash st Key).Collisions.getLastD (slotAt Hash st Key).Main,
              Collisions := (slotAt Hash st Key).Collisions.dropLast }))
        (AddressOf Hash st Key).1 (AddressOf Hash st Key).2 POPULATED, true) := by
  have hce : (slotAt Hash st Key).Collisions.isEmpty = false :=
    List.isEmpty_eq_false.2 hc
  simp only [slotAt, AddressOf] at h hm hce ⊢
  simp only [Delete, h, hm, hce, populated_and_mask, populated_eq_empty_false,
    if_false, if_true, Bool.false_eq_true, eq_self_iff_true]

theorem Delete_populated_collision_swap {Hash : K → Nat} {Pred : K → K → Bool}
    {st : MapState K V} {Key : K} {i : Nat}
    (h : (slotAt Hash st Key).Lock = POPULATED)
    (hm : Pred (slotAt Hash st Key).Main.1 Key = false)
    (hi : (slotAt Hash st Key).Collisions.findIdx?
        (fun kv => Pred kv.1 Key) = some i) :
    Delete Hash Pred st Key =
      (setLock
        (Decrement (setSlot st (AddressOf Hash st Key).1 (AddressOf Hash st Key).2
          { slotAt Hash st Key with
              Collisions :=
                ((slotAt Hash st Key).Collisions.set i
                  ((slotAt Hash st Key).Collisions.getLastD
                    (slotAt Hash st Key).Main)).dropLast }))
        (AddressOf Hash st Key).1 (AddressOf Hash st Key).2 POPULATED, true) := by
  simp only [slotAt, AddressOf] at h hm hi ⊢
  simp only [Delete, h, hm, hi, populated_and_mask, populated_eq_empty_false,
    if_false, Bool.false_eq_true]

theorem Write_Slots_ne {Hash : K → Nat} {Pred : K → K → Bool}
    {st : MapState K V} {Key : K} {Val : V} {l' o' : Nat}
    (hne : ¬(l' = (AddressOf Hash st Key).1 ∧ o' = (AddressOf Hash st Key).2)) :
    (Write Hash Pred st Key Val).Slots l' o' = st.Slots l' o' := by
  simp only [AddressOf] at hne
  simp only [Write]
  split
  · simp only [setLock, setSlot_Slots, Increment_Slots, if_neg hne]
  split
  · simp only [setLock, setSlot_Slots, if_neg hne]
  split
  · simp only [setLock, setSlot_Slots, Increment_Slots, if_neg hne]
  · simp only [setLock, setSlot_Slots, if_neg hne]

theorem Write_Lock_self {Hash : K → Nat} {Pred : K → K → Bool}
    {st : MapState K V} {Key : K} {Val : V} :
    ((Write Hash Pred st Key Val).Slots (AddressOf Hash st Key).1
      (AddressOf Hash st Key).2).Lock = POPULATED := by
  simp only [AddressOf, Write]
  split
  · simp only [setLock, setSlot_Slots_self]
  split
  · simp only [setLock, setSlot_Slots_self]
  split
  · simp only [setLock, setSlot_Slots_self]
  · simp only [setLock, setSlot_Slots_self]

/-- Collapsing a `List.range` scan whose body is empty except at one index. -/
theorem flatMap_range_single {α : Type} (f : Nat → List α) :
    ∀ n j, j < n → (∀ i, i < n → i ≠ j → f i = []) →
      (List.range n).flatMap f = f j := by
  intro n
  induction n with
  | zero => intro j hj _; omega
  | succ n ih =>
    intro j hj hall
    rw [List.range_succ, List.flatMap_append, List.flatMap_singleton]
    rcases Nat.lt_or_ge j n with hlt | hge
    · rw [ih j hlt (fun i hi hne => hall i (by omega) hne),
        hall n (by omega) (by omega), List.append_nil]
    · have hj' : j = n := by omega
      subst hj'
      have hnil : (List.range j).flatMap f = [] :=
        List.flatMap_eq_nil_iff.2 fun x hx =>
          hall x (by have := List.mem_range.1 hx; omega) (by
            have := List.mem_range.1 hx; omega)
      rw [hnil, List.nil_append]

end MapModel

/-! ## Concrete instantiation used by witnesses

`K = V = size_t` with the repository's own hasher (`_Hash` casts the key to
`size_t`) and `std::equal_to`. -/

/-- `LayeredHash<size_t>`: `_Hash(Key) = static_cast<size_t>(Key)`. -/
def HashNat : Nat → Nat := fun Key => Key % 2 ^ 64

/-- `std::equal_to<size_t>`. -/
def PredNat : Nat → Nat → Bool := fun a b => a == b

/-- A map state whose `LayerLastIdx` has reached the highest layer. -/
def exhaustedState : MapState Unit Unit :=
  { Slots := fun _ _ => { Lock := EMPTY, Main := ((), ()), Collisions := [] },
    LayerLastIdx := MaxLayerCount - 1, AllocatedLayers := MaxLayerCount,
    DTOR_ThreadValuesSum := 0, Value := 0, Threshold := 0 }

/-- The state distilled from C4's failing sequence (see `C4_size_vs_distinct_keys`):
`Write(2633, 7)`, a growth step, and a second `Write(2633, 8)` that cannot
find the stale first copy. -/
def c4State : MapState Nat Nat :=
  Write HashNat PredNat
    (AllocateLayer (Write HashNat PredNat initState 2633 7)) 2633 8

/-! ## The claims -/

/-- C3: for every `last` in `[0, MaxLayerCount)` and every
`rawHash ∈ [0, P[last])`, the layer computed by `GetLayer` and the offset
computed by `GetSlot` satisfy `P[layer-1] ≤ rawHash < P[layer]` (with
`P[-1] = 0`, i.e. `PrimesPrev layer ≤ rawHash < Primes layer`) and
`offset < P[layer] - P[layer-1]`. -/
theorem C3_layer_math (last rawHash : Nat) (hlast : last < MaxLayerCount)
    (hraw : rawHash < Primes last) :
    PrimesPrev (GetLayer rawHash) ≤ rawHash ∧
    rawHash < Primes (GetLayer rawHash) ∧
    GetSlot rawHash (GetLayer rawHash)
      < Primes (GetLayer rawHash) - PrimesPrev (GetLayer rawHash) := by
  have h := address_sound hlast hraw
  exact ⟨h.1, h.2.1, h.2.2.2⟩

/-- C3 witness: `last = 1`, `rawHash = 3000` (which exercises the one-step
correction, `3000 ≥ Primes 0 = 2633`). -/
theorem C3_witness :
    (1 < MaxLayerCount ∧ 3000 < Primes 1) ∧
    PrimesPrev (GetLayer 3000) ≤ 3000 ∧
    3000 < Primes (GetLayer 3000) ∧
    GetSlot 3000 (GetLayer 3000)
      < Primes (GetLayer 3000) - PrimesPrev (GetLayer 3000) :=
  ⟨⟨by decide, by decide⟩, C3_layer_math 1 3000 (by decide) (by decide)⟩

/-- C10: for every key and every state whose `LayerLastIdx` is below
`MaxLayerCount`, the slot address a public operation computes is in bounds:
`RawHash(k) < Primes[LayerLastIdx]`, the derived layer is at most
`LayerLastIdx` (hence already allocated), and the derived offset is below
that layer's length `Primes[layer] - Primes[layer-1]`.  `Write`, `Read` and
`Delete` all address slots through exactly this derivation (`AddressOf`), so
none of them indexes `Slots` out of bounds. -/
theorem C10_address_in_bounds {K V : Type} (Hash : K → Nat) (st : MapState K V)
    (Key : K) (h : st.LayerLastIdx < MaxLayerCount) :
    RawHash Hash st Key < Primes st.LayerLastIdx ∧
    (AddressOf Hash st Key).1 ≤ st.LayerLastIdx ∧
    (AddressOf Hash st Key).2 < layerSize (AddressOf Hash st Key).1 := by
  obtain ⟨h1, h2⟩ := addressOf_bounds Hash st Key h
  exact ⟨rawHash_lt Hash st Key h, h1, h2⟩

/-- C10 witness: the freshly constructed map and key 2633 (whose raw hash
wraps to 0 through the `% Primes[0]` reduction). -/
theorem C10_witness :
    (initState : MapState Nat Nat).LayerLastIdx < MaxLayerCount ∧
    (RawHash HashNat (initState : MapState Nat Nat) 2633
        < Primes (initState : MapState Nat Nat).LayerLastIdx ∧
      (AddressOf HashNat (initState : MapState Nat Nat) 2633).1
        ≤ (initState : MapState Nat Nat).LayerLastIdx ∧
      (AddressOf HashNat (initState : MapState Nat Nat) 2633).2
        < layerSize (AddressOf HashNat (initState : MapState Nat Nat) 2633).1) :=
  ⟨by decide, C10_address_in_bounds HashNat initState 2633 (by decide)⟩

/-- C9 counterexample: the claimed doubling law `NP[i+1] = 2·NP[i]` is false
at `i = 0` on the selected (64-bit) table: the masks are one less than powers
of two, so `NP[1] = 8191 ≠ 8190 = 2·NP[0]`. -/
theorem C9_counterexample : ¬(NextPower 1 = 2 * NextPower 0) := by decide

/-- C9 amended: on both tables, each `NP` entry is one less than a power of
two, `P` is strictly increasing, `NP[i] < P[i+1] < NP[i+1]`,
`NP[i+1] + 1 = 2·(NP[i] + 1)` (consecutive powers of two — the doubling law
holds for the masks' successors, not for the masks themselves),
`P[i+1] > P[i] + NP[i]`, and `P[i] - NP[i] < P[0]` (as integers). -/
theorem C9_amended :
    (∀ i, i < 42 → NextPower i + 1 = 2 ^ (12 + i)) ∧
    (∀ i, i < 41 →
      Primes i < Primes (i + 1) ∧
      NextPower i < Primes (i + 1) ∧
      Primes (i + 1) < NextPower (i + 1) ∧
      NextPower (i + 1) + 1 = 2 * (NextPower i + 1) ∧
      Primes i + NextPower i < Primes (i + 1) ∧
      (Primes i : Int) - NextPower i < Primes 0) ∧
    (∀ i, i < 23 → NextPower_32b.getD i 0 + 1 = 2 ^ (10 + i)) ∧
    (∀ i, i < 22 →
      __Primes_32b.getD (i + 1) 0 < __Primes_32b.getD (i + 2) 0 ∧
      NextPower_32b.getD i 0 < __Primes_32b.getD (i + 2) 0 ∧
      __Primes_32b.getD (i + 2) 0 < NextPower_32b.getD (i + 1) 0 ∧
      NextPower_32b.getD (i + 1) 0 + 1 = 2 * (NextPower_32b.getD i 0 + 1) ∧
      __Primes_32b.getD (i + 1) 0 + NextPower_32b.getD i 0
        < __Primes_32b.getD (i + 2) 0 ∧
      (__Primes_32b.getD (i + 1) 0 : Int) - NextPower_32b.getD i 0
        < __Primes_32b.getD 1 0) := by
  refine ⟨by decide, by decide, by decide, by decide⟩

/-- C9 witness: the amended invariants evaluated at `i = 0` of the 64-bit
table. -/
theorem C9_witness :
    0 < 41 ∧
    (Primes 0 < Primes 1 ∧ NextPower 0 < Primes 1 ∧ Primes 1 < NextPower 1 ∧
      NextPower 1 + 1 = 2 * (NextPower 0 + 1) ∧
      Primes 0 + NextPower 0 < Primes 1 ∧
      (Primes 0 : Int) - NextPower 0 < Primes 0) :=
  ⟨by decide, C9_amended.2.1 0 (by decide)⟩

/-- C8: `ThreadValue::Increment` increments `Value` by one, calls
`manager.UpdateManager()` iff the new (post-increment) value reaches
`Threshold` (MSVC `INCREMENT(X)` is `(++X)`, the incremented value), and in
every case its last manager interaction is `WaitForGlobalValue`;
`ThreadValue::Decrement` decrements `Value` by one and only ever calls
`WaitForGlobalValue`. -/
theorem C8_increment_decrement (tv : ThreadValueState) :
    ((ThreadValue_Increment tv).1.Value = tv.Value + 1) ∧
    (ManagerCall.updateManager ∈ (ThreadValue_Increment tv).2 ↔
      tv.Threshold ≤ tv.Value + 1) ∧
    ((ThreadValue_Increment tv).2.getLast? = some ManagerCall.waitForGlobalValue) ∧
    ((ThreadValue_Decrement tv).1.Value = tv.Value - 1) ∧
    (ManagerCall.updateManager ∉ (ThreadValue_Decrement tv).2) ∧
    (ManagerCall.waitForGlobalValue ∈ (ThreadValue_Decrement tv).2) := by
  refine ⟨rfl, ?_, ?_, rfl, ?_, ?_⟩
  · unfold ThreadValue_Increment
    dsimp only
    split_ifs with h
    · simp [h]
    · simp [h]
  · unfold ThreadValue_Increment
    dsimp only
    split_ifs with h <;> rfl
  · simp [ThreadValue_Decrement]
  · simp [ThreadValue_Decrement]

/-- C8 witness: the counter at value 0 with threshold 1 (the increment
reaches the threshold and triggers the update). -/
theorem C8_witness :
    ((ThreadValue_Increment ⟨0, 1⟩).1.Value = (0 : Int) + 1) ∧
    (ManagerCall.updateManager ∈ (ThreadValue_Increment ⟨0, 1⟩).2 ↔
      (1 : Int) ≤ (0 : Int) + 1) ∧
    ((ThreadValue_Increment ⟨0, 1⟩).2.getLast?
      = some ManagerCall.waitForGlobalValue) ∧
    ((ThreadValue_Decrement ⟨0, 1⟩).1.Value = (0 : Int) - 1) ∧
    (ManagerCall.updateManager ∉ (ThreadValue_Decrement ⟨0, 1⟩).2) ∧
    (ManagerCall.waitForGlobalValue ∈ (ThreadValue_Decrement ⟨0, 1⟩).2) :=
  C8_increment_decrement ⟨0, 1⟩

/-- C2 counterexample: the `(layer, offset)` pair derived for a key is *not*
stable across `AllocateLayer` in general.  Key 2633 (identity hash) derives
`rawHash = 2633 % Primes[0] = 0`, hence slot `(0, 0)`, before growth; after
one `AllocateLayer` it derives `rawHash = 2633 % Primes[1] = 2633`, hence
slot `(1, 0)`. -/
theorem C2_counterexample :
    AddressOf HashNat (initState : MapState Nat Nat) 2633 = (0, 0) ∧
    AddressOf HashNat (AllocateLayer (initState : MapState Nat Nat)) 2633 = (1, 0) ∧
    AddressOf HashNat (AllocateLayer (initState : MapState Nat Nat)) 2633
      ≠ AddressOf HashNat (initState : MapState Nat Nat) 2633 := by
  refine ⟨by decide, by decide, by decide⟩

/-- C2 amended: address stability holds exactly for the keys growth does not
re-hash — whenever the key's hash value is below the current prime bound
`Primes[LayerLastIdx]` (so masking and reduction leave it unchanged), the
derived `(layer, offset)` is unchanged by any number of subsequent
`AllocateLayer` calls that stay within `MaxLayerCount`; and `AllocateLayer`
moves no existing entry (the slot array is untouched by growth). -/
theorem C2_amended {K V : Type} (Hash : K → Nat) (st : MapState K V) (Key : K)
    (n : Nat) (hcap : st.LayerLastIdx + n < MaxLayerCount)
    (hlow : Hash Key < Primes st.LayerLastIdx) :
    AddressOf Hash (AllocateLayer^[n] st) Key = AddressOf Hash st Key ∧
    (AllocateLayer^[n] st).Slots = st.Slots := by
  have h42 : MaxLayerCount = 42 := rfl
  rw [h42] at hcap
  have hiter : ∀ m (s : MapState K V),
      (AllocateLayer^[m] s).LayerLastIdx = s.LayerLastIdx + m ∧
      (AllocateLayer^[m] s).Slots = s.Slots := by
    intro m
    induction m with
    | zero => intro s; exact ⟨rfl, rfl⟩
    | succ m ih =>
      intro s
      rw [Function.iterate_succ_apply]
      obtain ⟨h1, h2⟩ := ih (AllocateLayer s)
      constructor
      · rw [h1]
        show s.LayerLastIdx + 1 + m = s.LayerLastIdx + (m + 1)
        omega
      · rw [h2, AllocateLayer_Slots]
  have hraw : ∀ (s : MapState K V), s.LayerLastIdx < 42 →
      Hash Key < Primes s.LayerLastIdx → RawHash Hash s Key = Hash Key := by
    intro s hl hk
    unfold RawHash
    have hNP : NextPower s.LayerLastIdx + 1 = 2 ^ (12 + s.LayerLastIdx) :=
      NextPower_pow _ hl
    have hmask : Hash Key &&& NextPower s.LayerLastIdx = Hash Key := by
      have hlt : Hash Key < 2 ^ (12 + s.LayerLastIdx) :=
        lt_of_lt_of_le hk (le_of_lt (Primes_lt_NP _ hl))
      have : NextPower s.LayerLastIdx = 2 ^ (12 + s.LayerLastIdx) - 1 := by omega
      rw [this]
      exact Nat.and_pow_two_sub_one_of_lt_two_pow hlt
    rw [hmask, Nat.mod_eq_of_lt hk]
  obtain ⟨hL, hS⟩ := hiter n st
  have hr1 : RawHash Hash (AllocateLayer^[n] st) Key = Hash Key := by
    apply hraw
    · omega
    · rw [hL]
      exact lt_of_lt_of_le hlow
        (Primes_le_mono _ (by omega) st.LayerLastIdx (by omega))
  have hr2 : RawHash Hash st Key = Hash Key := hraw st (by omega) hlow
  constructor
  · simp only [AddressOf, hr1, hr2]
  · exact hS

/-- C2 witness: one growth, key 7 (hash 7 < `Primes 0`). -/
theorem C2_witness :
    ((initState : MapState Nat Nat).LayerLastIdx + 1 < MaxLayerCount ∧
      HashNat 7 < Primes (initState : MapState Nat Nat).LayerLastIdx) ∧
    (AddressOf HashNat (AllocateLayer^[1] (initState : MapState Nat Nat)) 7 =
        AddressOf HashNat (initState : MapState Nat Nat) 7 ∧
      (AllocateLayer^[1] (initState : MapState Nat Nat)).Slots
        = (initState : MapState Nat Nat).Slots) :=
  ⟨⟨by decide, by decide⟩, C2_amended HashNat initState 7 1 (by decide) (by decide)⟩

/-- C7 counterexample: growth past the highest layer does not fail — there
is no CapacityExceeded (or any other) error path in the code.  From
`LayerLastIdx = MaxLayerCount - 1`, `AllocateLayer` proceeds: it sets
`LayerLastIdx = MaxLayerCount` and reads the prime table at index
`MaxLayerCount`, one past its last valid index `MaxLayerCount - 1`. -/
theorem C7_counterexample :
    (AllocateLayer exhaustedState).LayerLastIdx = MaxLayerCount ∧
    MaxLayerCount ∈ AllocateLayerPrimesIdx exhaustedState ∧
    ¬(MaxLayerCount ≤ MaxLayerCount - 1) := by
  refine ⟨rfl, by decide, by decide⟩

/-- C7 amended: `AllocateLayer` performs no capacity check.  It always
advances `LayerLastIdx` by one; while `LayerLastIdx + 1 < MaxLayerCount` its
prime-table reads are in bounds, but at `LayerLastIdx = MaxLayerCount - 1`
it still proceeds and reads the table at the out-of-range index
`MaxLayerCount` (undefined behavior in the C++) instead of failing with
CapacityExceeded. -/
theorem C7_no_capacity_check {K V : Type} (st : MapState K V) :
    ((AllocateLayer st).LayerLastIdx = st.LayerLastIdx + 1) ∧
    (st.LayerLastIdx + 1 < MaxLayerCount →
      ∀ i ∈ AllocateLayerPrimesIdx st, i < MaxLayerCount) ∧
    (st.LayerLastIdx = MaxLayerCount - 1 →
      st.LayerLastIdx + 1 ∈ AllocateLayerPrimesIdx st ∧
      ¬(st.LayerLastIdx + 1 < MaxLayerCount)) := by
  refine ⟨rfl, ?_, ?_⟩
  · intro h i hi
    unfold AllocateLayerPrimesIdx at hi
    simp only [List.mem_cons, List.mem_singleton, List.not_mem_nil, or_false] at hi
    rcases hi with hi | hi <;> omega
  · intro h
    have h42 : MaxLayerCount = 42 := rfl
    constructor
    · unfold AllocateLayerPrimesIdx
      exact List.mem_cons_of_mem _ (List.mem_singleton.2 rfl)
    · omega

/-- C5: for every key absent from the map (no stored pair has a `Pred`-equal
key; in particular after a successful Delete), Delete returns false and
leaves the map state unchanged, and Read fails with *NotFound*; moreover
Read fails with *NotFound* exactly when the key is absent.  Stated over
states satisfying the representation invariant `Inv`, which every
growth-free reachable state satisfies (the unfinished growth path, see C1,
C2 and C4, can break it). -/
theorem C5_absent_key_semantics {K V : Type} (Hash : K → Nat)
    (Pred : K → K → Bool) (st : MapState K V) (Key : K)
    (hPred : ∀ a b, Pred a b = true ↔ a = b) (hInv : Inv Hash st) :
    (absentKey Pred st Key → Delete Hash Pred st Key = (st, false)) ∧
    (Read Hash Pred st Key = none ↔ absentKey Pred st Key) := by
  obtain ⟨hlast, hSlotInv, hAddr⟩ := hInv
  obtain ⟨hLb, hOb⟩ := addressOf_bounds Hash st Key hlast
  have hdich : (slotAt Hash st Key).Lock = EMPTY ∨
      (slotAt Hash st Key).Lock = POPULATED :=
    (hSlotInv (AddressOf Hash st Key).1 (AddressOf Hash st Key).2).1
  have hslotAbs : absentKey Pred st Key →
      ∀ p ∈ slotPairs (slotAt Hash st Key), Pred p.1 Key = false := by
    intro habs p hp
    exact habs p (mem_storedPairs_of st (by omega) hOb hp)
  -- Read = none implies the key is absent (uses the address invariant)
  have himp : Read Hash Pred st Key = none → absentKey Pred st Key := by
    intro hread p hp
    by_contra hne
    have hptrue : Pred p.1 Key = true := by
      cases hb : Pred p.1 Key
      · exact absurd hb hne
      · rfl
    have hkey : p.1 = Key := (hPred _ _).1 hptrue
    obtain ⟨l, o, hl, ho, hp'⟩ := exists_of_mem_storedPairs hp
    have haddr := hAddr l o hl ho p hp'
    rw [hkey] at haddr
    have hl' : (AddressOf Hash st Key).1 = l := by rw [haddr]
    have ho' : (AddressOf Hash st Key).2 = o := by rw [haddr]
    have hpslot : p ∈ slotPairs (slotAt Hash st Key) := by
      unfold slotAt
      rw [hl', ho']
      exact hp'
    have hlockne := slotPairs_mem_lock hpslot
    have hPop : (slotAt Hash st Key).Lock = POPULATED := by
      rcases hdich with h0 | h0
      · exact absurd (by rw [h0]; exact empty_and_mask) hlockne
      · exact h0
    rw [slotPairs_populated hlockne] at hpslot
    by_cases hmain : Pred (slotAt Hash st Key).Main.1 Key = true
    · rw [Read_populated_main hPop hmain] at hread
      exact Option.noConfusion hread
    · have hmain' : Pred (slotAt Hash st Key).Main.1 Key = false := by
        cases hb : Pred (slotAt Hash st Key).Main.1 Key
        · rfl
        · exact absurd hb hmain
      rcases List.mem_cons.1 hpslot with heq | hmem
      · rw [← heq, hptrue] at hmain'
        exact Bool.noConfusion hmain'
      · cases hfind : (slotAt Hash st Key).Collisions.find?
            (fun kv => Pred kv.1 Key) with
        | none => exact absurd hptrue (List.find?_eq_none.1 hfind p hmem)
        | some kv =>
          rw [Read_populated_collision hPop hmain' hfind] at hread
          exact Option.noConfusion hread
  refine ⟨?_, himp, ?_⟩
  · -- Delete on an absent key: false, state unchanged
    intro habs
    rcases hdich with hE | hP
    · exact Delete_empty hE
    · have hmain : Pred (slotAt Hash st Key).Main.1 Key = false := by
        apply hslotAbs habs
        rw [slotPairs_populated (by rw [hP, populated_and_mask]; decide)]
        exact List.mem_cons_self _ _
      have hidx : (slotAt Hash st Key).Collisions.findIdx?
          (fun kv => Pred kv.1 Key) = none := by
        rw [List.findIdx?_eq_none_iff]
        intro x hx
        apply hslotAbs habs
        rw [slotPairs_populated (by rw [hP, populated_and_mask]; decide)]
        exact List.mem_cons_of_mem _ hx
      exact Delete_populated_notfound hP hmain hidx
  · -- absent implies Read = none
    intro habs
    rcases hdich with hE | hP
    · exact Read_empty hE
    · have hmain : Pred (slotAt Hash st Key).Main.1 Key = false := by
        apply hslotAbs habs
        rw [slotPairs_populated (by rw [hP, populated_and_mask]; decide)]
        exact List.mem_cons_self _ _
      have hfind : (slotAt Hash st Key).Collisions.find?
          (fun kv => Pred kv.1 Key) = none := by
        rw [List.find?_eq_none]
        intro x hx hfalse
        have := hslotAbs habs x (by
          rw [slotPairs_populated (by rw [hP, populated_and_mask]; decide)]
          exact List.mem_cons_of_mem _ hx)
        rw [this] at hfalse
        exact Bool.noConfusion hfalse
      exact Read_populated_notfound hP hmain hfind

/-- C5 witness: key 5 on the freshly constructed map (where it is absent). -/
theorem C5_witness :
    ((∀ a b : Nat, PredNat a b = true ↔ a = b) ∧
      Inv HashNat (initState : MapState Nat Nat) ∧
      absentKey PredNat (initState : MapState Nat Nat) 5) ∧
    (Delete HashNat PredNat (initState : MapState Nat Nat) 5
        = ((initState : MapState Nat Nat), false) ∧
      (Read HashNat PredNat (initState : MapState Nat Nat) 5 = none ↔
        absentKey PredNat (initState : MapState Nat Nat) 5)) :=
  ⟨⟨fun a b => by simp [PredNat], Inv_initState HashNat, absentKey_initState PredNat 5⟩,
    (C5_absent_key_semantics HashNat PredNat initState 5
        (fun a b => by simp [PredNat]) (Inv_initState HashNat)).1
      (absentKey_initState PredNat 5),
    (C5_absent_key_semantics HashNat PredNat initState 5
        (fun a b => by simp [PredNat]) (Inv_initState HashNat)).2⟩

/-- C6: every complete Write and Delete preserves the slot invariant (the
at-rest lock word carries exactly the occupancy bit, which is POPULATED iff
the slot logically holds its Main pair, and the overflow list is non-empty
only when the occupancy bit is set); Read only takes and releases the read
lock, leaving the state untouched, so it preserves the invariant trivially.
Delete of the last occupant releases the lock with EMPTY; Delete of one
occupant among several moves the overflow list's last element into the
vacated position (Main, or the matched overflow cell) and releases with
POPULATED. -/
theorem C6_slot_invariant {K V : Type} (Hash : K → Nat) (Pred : K → K → Bool)
    (st : MapState K V) (Key : K) (Val : V) (hInvAll : SlotInvAll st) :
    SlotInvAll (Write Hash Pred st Key Val) ∧
    SlotInvAll (Delete Hash Pred st Key).1 ∧
    ((slotAt Hash st Key).Lock = POPULATED →
      Pred (slotAt Hash st Key).Main.1 Key = true →
      (slotAt Hash st Key).Collisions = [] →
      ((Delete Hash Pred st Key).1.Slots (AddressOf Hash st Key).1
          (AddressOf Hash st Key).2).Lock = EMPTY ∧
      (Delete Hash Pred st Key).2 = true) ∧
    ((slotAt Hash st Key).Lock = POPULATED →
      Pred (slotAt Hash st Key).Main.1 Key = true →
      (slotAt Hash st Key).Collisions ≠ [] →
      ((Delete Hash Pred st Key).1.Slots (AddressOf Hash st Key).1
          (AddressOf Hash st Key).2).Lock = POPULATED ∧
      ((Delete Hash Pred st Key).1.Slots (AddressOf Hash st Key).1
          (AddressOf Hash st Key).2).Main
        = (slotAt Hash st Key).Collisions.getLastD (slotAt Hash st Key).Main ∧
      ((Delete Hash Pred st Key).1.Slots (AddressOf Hash st Key).1
          (AddressOf Hash st Key).2).Collisions
        = (slotAt Hash st Key).Collisions.dropLast ∧
      (Delete Hash Pred st Key).2 = true) ∧
    (∀ i, (slotAt Hash st Key).Lock = POPULATED →
      Pred (slotAt Hash st Key).Main.1 Key = false →
      (slotAt Hash st Key).Collisions.findIdx? (fun kv => Pred kv.1 Key)
        = some i →
      ((Delete Hash Pred st Key).1.Slots (AddressOf Hash st Key).1
          (AddressOf Hash st Key).2).Lock = POPULATED ∧
      ((Delete Hash Pred st Key).1.Slots (AddressOf Hash st Key).1
          (AddressOf Hash st Key).2).Collisions
        = ((slotAt Hash st Key).Collisions.set i
            ((slotAt Hash st Key).Collisions.getLastD
              (slotAt Hash st Key).Main)).dropLast ∧
      (Delete Hash Pred st Key).2 = true) := by
  have hpopInv : ∀ (s : Slot K V), s.Lock = POPULATED → SlotInv s := by
    intro s hs
    refine ⟨Or.inr hs, fun hE => ?_⟩
    rw [hs] at hE
    exact absurd hE (by decide)
  refine ⟨?_, ?_, ?_, ?_, ?_⟩
  · -- Write preserves the invariant
    intro l o
    by_cases hco : l = (AddressOf Hash st Key).1 ∧ o = (AddressOf Hash st Key).2
    · obtain ⟨rfl, rfl⟩ := hco
      exact hpopInv _ Write_Lock_self
    · rw [Write_Slots_ne hco]
      exact hInvAll l o
  · -- Delete preserves the invariant
    rcases (hInvAll (AddressOf Hash st Key).1 (AddressOf Hash st Key).2).1
      with hE | hP
    · rw [Delete_empty hE]
      exact hInvAll
    · by_cases hmain : Pred (slotAt Hash st Key).Main.1 Key = true
      · by_cases hcols : (slotAt Hash st Key).Collisions = []
        · rw [Delete_populated_main_last hP hmain hcols]
          dsimp only
          intro l o
          by_cases hco : l = (AddressOf Hash st Key).1 ∧
              o = (AddressOf Hash st Key).2
          · obtain ⟨rfl, rfl⟩ := hco
            rw [setLock_Slots_self]
            exact ⟨Or.inl rfl, fun _ => hcols⟩
          · rw [setLock_Slots_ne _ _ _ _ hco]
            exact hInvAll l o
        · rw [Delete_populated_main_swap hP hmain hcols]
          dsimp only
          intro l o
          by_cases hco : l = (AddressOf Hash st Key).1 ∧
              o = (AddressOf Hash st Key).2
          · obtain ⟨rfl, rfl⟩ := hco
            rw [setLock_Slots_self]
            exact hpopInv _ rfl
          · rw [setLock_Slots_ne _ _ _ _ hco]
            have hd : ∀ s' : Slot K V,
                (Decrement (setSlot st (AddressOf Hash st Key).1
                  (AddressOf Hash st Key).2 s')).Slots l o = st.Slots l o := by
              intro s'
              rw [Decrement_Slots, setSlot_Slots, if_neg hco]
            rw [hd]
            exact hInvAll l o
      · have hmain' : Pred (slotAt Hash st Key).Main.1 Key = false := by
          cases hb : Pred (slotAt Hash st Key).Main.1 Key
          · rfl
          · exact absurd hb hmain
        cases hfind : (slotAt Hash st Key).Collisions.findIdx?
            (fun kv => Pred kv.1 Key) with
        | none =>
          rw [Delete_populated_notfound hP hmain' hfind]
          exact hInvAll
        | some i =>
          rw [Delete_populated_collision_swap hP hmain' hfind]
          dsimp only
          intro l o
          by_cases hco : l = (AddressOf Hash st Key).1 ∧
              o = (AddressOf Hash st Key).2
          · obtain ⟨rfl, rfl⟩ := hco
            rw [setLock_Slots_self]
            exact hpopInv _ rfl
          · rw [setLock_Slots_ne _ _ _ _ hco]
            have hd : ∀ s' : Slot K V,
                (Decrement (setSlot st (AddressOf Hash st Key).1
                  (AddressOf Hash st Key).2 s')).Slots l o = st.Slots l o := by
              intro s'
              rw [Decrement_Slots, setSlot_Slots, if_neg hco]
            rw [hd]
            exact hInvAll l o
  · -- Delete of the last occupant
    intro hP hmain hcols
    rw [Delete_populated_main_last hP hmain hcols]
    dsimp only
    refine ⟨?_, rfl⟩
    rw [setLock_Slots_self]
  · -- Delete of one among several, key found in Main
    intro hP hmain hcols
    rw [Delete_populated_main_swap hP hmain hcols]
    dsimp only
    refine ⟨?_, ?_, ?_, rfl⟩
    · rw [setLock_Slots_self]
    · rw [setLock_Slots_self]
      show ((Decrement _).Slots _ _).Main = _
      rw [Decrement_Slots, setSlot_Slots_self]
    · rw [setLock_Slots_self]
      show ((Decrement _).Slots _ _).Collisions = _
      rw [Decrement_Slots, setSlot_Slots_self]
  · -- Delete of one among several, key found in the overflow list
    intro i hP hmain hfind
    rw [Delete_populated_collision_swap hP hmain hfind]
    dsimp only
    refine ⟨?_, ?_, rfl⟩
    · rw [setLock_Slots_self]
    · rw [setLock_Slots_self]
      show ((Decrement _).Slots _ _).Collisions = _
      rw [Decrement_Slots, setSlot_Slots_self]

/-- C6 witness: the invariant is established on the freshly constructed map
and preserved by a Write and a Delete on it. -/
theorem C6_witness :
    SlotInvAll (initState : MapState Nat Nat) ∧
    SlotInvAll (Write HashNat PredNat (initState : MapState Nat Nat) 5 7) ∧
    SlotInvAll (Delete HashNat PredNat (initState : MapState Nat Nat) 5).1 :=
  ⟨(Inv_initState HashNat).2.1,
    (C6_slot_invariant HashNat PredNat initState 5 7
        (Inv_initState HashNat).2.1).1,
    (C6_slot_invariant HashNat PredNat initState 5 7
        (Inv_initState HashNat).2.1).2.1⟩

/-- C7 witness: the amended statement at the exhausted state (out-of-range
read) and at a fresh state (in-bounds reads). -/
theorem C7_witness :
    ((AllocateLayer exhaustedState).LayerLastIdx
        = exhaustedState.LayerLastIdx + 1 ∧
      (exhaustedState.LayerLastIdx + 1 ∈ AllocateLayerPrimesIdx exhaustedState ∧
        ¬(exhaustedState.LayerLastIdx + 1 < MaxLayerCount))) ∧
    (∀ i ∈ AllocateLayerPrimesIdx (initState : MapState Nat Nat),
      i < MaxLayerCount) :=
  ⟨⟨(C7_no_capacity_check exhaustedState).1,
      (C7_no_capacity_check exhaustedState).2.2 (by decide)⟩,
    (C7_no_capacity_check (initState : MapState Nat Nat)).2.1 (by decide)⟩

/-- C1 (code bug): read-your-write fails once the table grows, because
`AllocateLayer` does not migrate entries — its own documentation promises
"moves the currently stored elements to their new position" but the body is
marked `/* To do ... */`.  In a pure sequence of Writes on a fresh 64-bit
map the growth triggers automatically inside the 2634th Write: the initial
per-thread threshold is `Primes[0] = 2633`, the 2634th increment makes the
global value 2634 > 2633, so `RESIZE_FUNC` calls the public
`AllocateLayer()`.  This theorem distils that failure into the minimal
trace: after `Write(2633, 7)` the pair is stored at slot `(0,0)` and
readable; the same `AllocateLayer()` step the callback performs leaves
every slot untouched (the pair still sits at `(0,0)`, POPULATED), yet
`Read(2633)` now derives slot `(1,0)` and fails with *NotFound*. -/
theorem C1_read_after_growth_fails :
    Read HashNat PredNat
        (Write HashNat PredNat (initState : MapState Nat Nat) 2633 7) 2633
      = some 7 ∧
    Read HashNat PredNat
        (AllocateLayer (Write HashNat PredNat (initState : MapState Nat Nat) 2633 7))
        2633
      = none ∧
    (AllocateLayer
        (Write HashNat PredNat (initState : MapState Nat Nat) 2633 7)).Slots
      = (Write HashNat PredNat (initState : MapState Nat Nat) 2633 7).Slots ∧
    ((AllocateLayer
        (Write HashNat PredNat (initState : MapState Nat Nat) 2633 7)).Slots 0 0).Main
      = (2633, 7) ∧
    ((AllocateLayer
        (Write HashNat PredNat (initState : MapState Nat Nat) 2633 7)).Slots 0 0).Lock
      = POPULATED := by
  refine ⟨by decide, by decide, rfl, by decide, by decide⟩

/-- C4 (code bug): after growth, a Write over an existing key does not find
the stale copy, inserts a second pair and increments the counter, so
`GetSize` (= 2 here) exceeds the number of distinct keys present (= 1).  As
with C1, in a pure Write/Delete sequence this arises from the 2634th Write
onward; the trace is distilled with one explicit `AllocateLayer()` step. -/
theorem C4_size_vs_distinct_keys :
    GetSize c4State = 2 ∧
    storedPairs c4State = [(2633, 7), (2633, 8)] ∧
    ((storedPairs c4State).map Prod.fst).dedup.length = 1 := by
  have hA1 : AddressOf HashNat (initState : MapState Nat Nat) 2633 = (0, 0) := by
    decide
  have hA2 : AddressOf HashNat
      (AllocateLayer (Write HashNat PredNat (initState : MapState Nat Nat) 2633 7))
      2633 = (1, 0) := by decide
  have hother : ∀ l o, ¬(l = 0 ∧ o = 0) → ¬(l = 1 ∧ o = 0) →
      c4State.Slots l o
        = { Lock := EMPTY, Main := (default, default), Collisions := [] } := by
    intro l o h0 h1
    unfold c4State
    rw [Write_Slots_ne (by rw [hA2]; simpa using h1), AllocateLayer_Slots,
      Write_Slots_ne (by rw [hA1]; simpa using h0), initState_Slots]
    rfl
  have hS00 : c4State.Slots 0 0
      = { Lock := POPULATED, Main := (2633, 7), Collisions := [] } := rfl
  have hS10 : c4State.Slots 1 0
      = { Lock := POPULATED, Main := (2633, 8), Collisions := [] } := rfl
  have hstored : storedPairs c4State = [(2633, 7), (2633, 8)] := by
    unfold storedPairs
    have hL : c4State.LayerLastIdx + 1 = 2 := by decide
    rw [hL]
    have hr2 : List.range 2 = [0, 1] := by decide
    rw [hr2, List.flatMap_cons, List.flatMap_cons, List.flatMap_nil,
      List.append_nil]
    have h0 : (List.range (layerSize 0)).flatMap
        (fun o => slotPairs (c4State.Slots 0 o))
        = slotPairs (c4State.Slots 0 0) := by
      apply flatMap_range_single
      · decide
      · intro i _ hne
        rw [hother 0 i (by simp [hne]) (by simp)]
        rfl
    have h1 : (List.range (layerSize 1)).flatMap
        (fun o => slotPairs (c4State.Slots 1 o))
        = slotPairs (c4State.Slots 1 0) := by
      apply flatMap_range_single
      · decide
      · intro i _ hne
        rw [hother 1 i (by simp) (by simp [hne])]
        rfl
    rw [h0, h1, hS00, hS10]
    rfl
  refine ⟨by decide, hstored, ?_⟩
  rw [hstored]
  decide

end LayeredHashMap
